import Mathlib

/-!
# Shallow embedding of the quadratic-voting repository

Two source files are embedded:
* `voting_app.py` — the quadratic-voting entry form (`VotingApp`);
* `votes_visualization_app.py` — the read-only visualization
  (`VoteDataProcessor`, `VoteStatistics`).

Modelling conventions:
* A ballot (`st.session_state.user_votes`, a Python dict whose key set is the
  configured options list) is a function `String → ℕ` read at the configured
  options; vote counts are natural numbers (`st.number_input` has
  `min_value=0`).
* Timestamps (`vote_datetime` strings, compared chronologically after
  `pd.to_datetime`) are natural numbers.
* Python's `int(x ** 0.5)` for `x : ℕ` is modelled as the exact integer square
  root `Nat.sqrt x`.
* JSON scalar vote values are modelled by `JVal` (floating-point numbers are
  not modelled); fallible reads return `Except`.
-/

namespace QuadraticVoting

/-- A JSON scalar value as it can appear as a vote count inside the `"votes"`
object of a ledger entry. -/
inductive JVal where
  | int (n : Int)
  | str (s : String)
  | bool (b : Bool)
  | null
deriving DecidableEq, Repr

/-- Numeric value of a decimal digit string (most significant digit first). -/
def digitsVal (cs : List Char) : Nat :=
  cs.foldl (fun a c => a * 10 + (c.toNat - 48)) 0

/-- Python `int(s)` on a string: optional surrounding spaces, an optional sign,
then a nonempty run of decimal digits; any other shape raises `ValueError`,
modelled as `none`. -/
def pyParseDecimal (s : String) : Option Int :=
  let cs := ((s.toList.dropWhile (· = ' ')).reverse.dropWhile (· = ' ')).reverse
  match cs with
  | '-' :: rest =>
    if rest.isEmpty then none
    else if rest.all (·.isDigit) then some (-(digitsVal rest : Int)) else none
  | '+' :: rest =>
    if rest.isEmpty then none
    else if rest.all (·.isDigit) then some (digitsVal rest : Int) else none
  | rest =>
    if rest.isEmpty then none
    else if rest.all (·.isDigit) then some (digitsVal rest : Int) else none

/-- Python `int(...)` applied to a decoded JSON scalar: an `int` is returned
unchanged, a `bool` becomes its 0/1 value, a string is parsed as a decimal
numeral (`ValueError` on failure), and `None` raises `TypeError`.  `none`
models a raised `ValueError`/`TypeError`. -/
def pyToInt : JVal → Option Int
  | .int n => some n
  | .bool b => some (if b then 1 else 0)
  | .str s => pyParseDecimal s
  | .null => none

/-- One element of the `votes.json` array:
`{ "username": ..., "votes": {...}, "vote_datetime": ... }`. -/
structure VoteRecord where
  username : String
  votes : List (String × JVal)
  vote_datetime : Nat
deriving DecidableEq, Repr

/-! ## `votes_visualization_app.py` — `VoteDataProcessor` -/

/-- `VoteDataProcessor._extract_vote_columns`: the set of all keys appearing in
any record's `votes` dict, sorted lexicographically. -/
def extract_vote_columns (records : List VoteRecord) : List String :=
  ((records.map (fun r => r.votes.map Prod.fst)).flatten.dedup).mergeSort
    (fun a b => a ≤ b)

/-- The comparator `sort_values('vote_datetime')` sorts by: ascending
timestamp. -/
def dtLE (a b : VoteRecord) : Bool :=
  a.vote_datetime ≤ b.vote_datetime

/-- One concrete `df.sort_values('vote_datetime')` output, realized with a
stable sort.  The default `kind='quicksort'` is not guaranteed stable, so the
order of records with equal timestamps in the program's output is
unspecified; the possible outputs are captured by `IsSortedByDatetime` below,
and this deterministic realization exhibits that such outputs exist. -/
def sortByDatetime (records : List VoteRecord) : List VoteRecord :=
  records.mergeSort dtLE

/-- `groupby('username').tail(1)`: keep, in order, exactly those rows that are
the last row of their username group. -/
def keepLastPerUser : List VoteRecord → List VoteRecord
  | [] => []
  | r :: l =>
    let rest := keepLastPerUser l
    if rest.any (fun x => x.username == r.username) then rest else r :: rest

/-- `VoteDataProcessor.remove_duplicate_users`:
`df.sort_values('vote_datetime').groupby('username').tail(1)`, realized with
the stable sort; the program's possible outputs are captured by
`IsDedupOutput` below. -/
def remove_duplicate_users (records : List VoteRecord) : List VoteRecord :=
  keepLastPerUser (sortByDatetime records)

/-- A possible result of `df.sort_values('vote_datetime')` with the default
`kind='quicksort'`: the sort is not guaranteed stable, so the order of
records with equal timestamps is unspecified — any timestamp-ascending
permutation of the input is a possible output. -/
def IsSortedByDatetime (records sorted : List VoteRecord) : Prop :=
  List.Perm sorted records ∧ sorted.Pairwise (fun a b => dtLE a b = true)

/-- A possible result of `VoteDataProcessor.remove_duplicate_users`:
`groupby('username').tail(1)` applied to some possible `sort_values`
output. -/
def IsDedupOutput (records out : List VoteRecord) : Prop :=
  ∃ sorted, IsSortedByDatetime records sorted ∧ out = keepLastPerUser sorted

/-- `int(vote_value)` guarded by `except (ValueError, TypeError): 0`. -/
def coerceVote (v : JVal) : Int :=
  (pyToInt v).getD 0

/-- `user_votes.get(column, 0)` followed by the guarded `int(...)` coercion:
the vote count this record contributes to `column` in the summary. -/
def recordVoteFor (r : VoteRecord) (column : String) : Int :=
  coerceVote ((r.votes.lookup column).getD (.int 0))

/-- `VoteDataProcessor.calculate_vote_summary`: per-column totals; returns the
empty dict when the frame is empty or there are no columns. -/
def calculate_vote_summary (records : List VoteRecord)
    (vote_columns : List String) : List (String × Int) :=
  if records.isEmpty || vote_columns.isEmpty then []
  else vote_columns.map
    (fun column => (column, (records.map (fun r => recordVoteFor r column)).sum))

/-! ## The ledger file -/

/-- The state of the `votes.json` file on disk.  `malformed` stands for an
existing nonempty file whose contents do not parse as JSON. -/
inductive VotesFile where
  | absent
  | emptyFile
  | json (records : List VoteRecord)
  | malformed
deriving DecidableEq

/-- The exceptions a ledger read can raise: `FileNotFoundError` from `open`,
or `json.JSONDecodeError` from `json.load`. -/
inductive ReadError where
  | fileNotFound
  | parseError
deriving DecidableEq

/-- `VotingApp.load_votes`: returns `[]` when the file does not exist or has
size 0; otherwise parses the file. -/
def load_votes : VotesFile → Except ReadError (List VoteRecord)
  | .absent => .ok []
  | .emptyFile => .ok []
  | .json records => .ok records
  | .malformed => .error .parseError

/-- `VoteDataProcessor.load_vote_data`: opens the file unconditionally, so an
absent file raises `FileNotFoundError`, and `json.load` on a zero-length file
raises `JSONDecodeError`; on success also extracts the vote columns. -/
def load_vote_data : VotesFile → Except ReadError (List VoteRecord × List String)
  | .absent => .error .fileNotFound
  | .emptyFile => .error .parseError
  | .json records => .ok (records, extract_vote_columns records)
  | .malformed => .error .parseError

/-- `VotingApp.save_votes`: rewrites the whole document with the given array. -/
def save_votes (records : List VoteRecord) : VotesFile :=
  .json records

/-- The persistence effect of `VotingApp.complete_vote`: load the current
array, append the new record, rewrite the file.  A read error from the load
propagates. -/
def complete_vote (file : VotesFile) (record : VoteRecord) :
    Except ReadError VotesFile :=
  match load_votes file with
  | .error e => .error e
  | .ok records => .ok (save_votes (records ++ [record]))

/-! ## `voting_app.py` — the credit allocator -/

/-- `sum(v ** 2 for k, v in st.session_state.user_votes.items() if k != option)`:
the quadratic cost of all options other than `option`.  The ballot dict's key
set is the configured options list. -/
def other_options_cost (options : List String) (b : String → Nat)
    (option : String) : Nat :=
  ((options.filter (fun k => k != option)).map (fun k => b k ^ 2)).sum

/-- `VotingApp.calculate_max_votes_for_option`.  `remaining_credits` is
clamped at 0 (`max(0, ...)`, computed over ℤ as in Python), and
`int(x ** 0.5)` is the integer square root.  The cap `int((credits-1)**0.5)`
is modelled with truncated ℕ subtraction (the running app has `credits ≥ 1`). -/
def calculate_max_votes_for_option (credits : Nat) (options : List String)
    (b : String → Nat) (option : String) : Nat :=
  let remaining_credits : Int :=
    max 0 ((credits : Int) - other_options_cost options b option)
  let theoretical_max := Nat.sqrt remaining_credits.toNat
  if 1 < options.length then
    min theoretical_max (Nat.sqrt (credits - 1))
  else theoretical_max

/-- `VotingApp.get_total_cost`: `sum(v ** 2 for v in user_votes.values())`. -/
def get_total_cost (options : List String) (b : String → Nat) : Nat :=
  (options.map (fun o => b o ^ 2)).sum

/-- `VotingApp.update_vote`: `st.session_state.user_votes[option] = new_value`. -/
def update_vote (b : String → Nat) (option : String) (new_value : Nat) :
    String → Nat :=
  fun o => if o = option then new_value else b o

/-- Which error message (if any) `VotingApp.validate_votes` reports. -/
inductive ValidationResult where
  | ok
  | overBudget
  | singleOptionMonopoly
deriving DecidableEq

/-- `VotingApp.validate_votes`: the over-budget check runs first; only then,
when there is more than one option, the single-option full-budget check. -/
def validate_votes (credits : Nat) (options : List String) (b : String → Nat) :
    ValidationResult :=
  let total_cost := get_total_cost options b
  if credits < total_cost then .overBudget
  else if 1 < options.length then
    if options.any (fun o => credits ≤ b o ^ 2) then .singleOptionMonopoly
    else .ok
  else .ok

/-- Ballot states reachable through the voting interface: the all-zero ballot
(`init_session_state`), then each interaction writes one configured option
with a value `st.number_input` allows, i.e. between 0 and
`calculate_max_votes_for_option` (`render_voting_interface` /
`update_vote`). -/
inductive ReachableBallot (credits : Nat) (options : List String) :
    (String → Nat) → Prop
  | init : ReachableBallot credits options (fun _ => 0)
  | step (b : String → Nat) (option : String) (v : Nat) :
      ReachableBallot credits options b →
      option ∈ options →
      v ≤ calculate_max_votes_for_option credits options b option →
      ReachableBallot credits options (update_vote b option v)

/-! ## Spec-side definitions (for refinement comparisons) -/

/-- The spec's formula for `maxAllowedFor(option, b)`:
`floor(sqrt(C − Σ_{o≠option} b[o]²))` with the argument of the square root
clamped at 0 (truncated ℕ subtraction), additionally capped at
`floor(sqrt(C−1))` when `|O| > 1`. -/
def maxAllowedForSpec (credits : Nat) (options : List String)
    (b : String → Nat) (option : String) : Nat :=
  let base := Nat.sqrt (credits - other_options_cost options b option)
  if 1 < options.length then min base (Nat.sqrt (credits - 1)) else base

/-- The claim's reading of the aggregation rule: a vote value that is missing
from the record's ballot, or is not an integer JSON value, contributes 0. -/
def claimVoteFor (r : VoteRecord) (column : String) : Int :=
  match r.votes.lookup column with
  | some (.int n) => n
  | _ => 0

/-- Per-column totals under the claim's reading of the coercion rule. -/
def claimTotals (records : List VoteRecord) (vote_columns : List String) :
    List (String × Int) :=
  if records.isEmpty || vote_columns.isEmpty then []
  else vote_columns.map
    (fun column => (column, (records.map (fun r => claimVoteFor r column)).sum))

/-! ## Helper lemmas about the allocator -/

/-- The ℤ-level clamp `max(0, credits - cost)` agrees with truncated ℕ
subtraction. -/
theorem clamp_toNat (credits oc : Nat) :
    (max 0 ((credits : Int) - oc)).toNat = credits - oc := by
  omega

/-- The value `calculate_max_votes_for_option` returns is bounded by the
uncapped square root of the clamped remaining credits. -/
theorem calc_max_le_sqrt (credits : Nat) (options : List String)
    (b : String → Nat) (option : String) :
    calculate_max_votes_for_option credits options b option
      ≤ Nat.sqrt (credits - other_options_cost options b option) := by
  simp only [calculate_max_votes_for_option, clamp_toNat]
  split
  · exact min_le_left _ _
  · exact le_refl _

/-- Evaluation rule for `Nat.sqrt` at concrete arguments. -/
theorem sqrt_eval (a n : Nat) (h1 : a * a ≤ n) (h2 : n < (a + 1) * (a + 1)) :
    Nat.sqrt n = a :=
  (Nat.eq_sqrt.mpr ⟨h1, h2⟩).symm

/-- The spec's worked example: two options, 10 credits, all-zero ballot. -/
theorem calc_max_ten_zero_eval :
    calculate_max_votes_for_option 10 ["A", "B"] (fun _ => 0) "A" = 3 := by
  have h9 : Nat.sqrt 9 = 3 := sqrt_eval 3 9 (by decide) (by decide)
  have h10 : Nat.sqrt 10 = 3 := sqrt_eval 3 10 (by decide) (by decide)
  have hoc : other_options_cost ["A", "B"] (fun _ => 0) "A" = 0 := by decide
  simp only [calculate_max_votes_for_option, clamp_toNat, hoc]
  norm_num [h9, h10]

/-- With `option ∉ options`, excluding `option` excludes nothing. -/
theorem other_options_cost_of_not_mem (options : List String) (b : String → Nat)
    (option : String) (hno : option ∉ options) :
    other_options_cost options b option = get_total_cost options b := by
  have hf : options.filter (fun k => k != option) = options := by
    apply List.filter_eq_self.mpr
    intro x hx
    simp only [bne_iff_ne]
    intro hxo
    exact hno (hxo ▸ hx)
  simp [other_options_cost, get_total_cost, hf]

/-- `get_total_cost` splits as one option's cost plus the others' cost. -/
theorem get_total_cost_decompose (options : List String) (b : String → Nat)
    (option : String) (hnd : options.Nodup) (hmem : option ∈ options) :
    get_total_cost options b =
      b option ^ 2 + other_options_cost options b option := by
  induction options with
  | nil => cases hmem
  | cons o rest ih =>
    rcases List.nodup_cons.mp hnd with ⟨hno, hndr⟩
    rcases List.mem_cons.mp hmem with h | h
    · subst h
      have h1 : other_options_cost (option :: rest) b option =
          other_options_cost rest b option := by
        simp [other_options_cost, List.filter_cons]
      have h2 := other_options_cost_of_not_mem rest b option hno
      simp [get_total_cost, h1, h2]
    · have hoo : (o != option) = true := by
        simp only [bne_iff_ne]
        intro he
        exact hno (he ▸ h)
      have hrec := ih hndr h
      simp only [get_total_cost, other_options_cost, List.map_cons,
        List.sum_cons, List.filter_cons, hoo, if_true] at hrec ⊢
      omega

/-- Writing `option` does not change the other options' cost. -/
theorem other_options_cost_update (options : List String) (b : String → Nat)
    (option : String) (v : Nat) :
    other_options_cost options (update_vote b option v) option =
      other_options_cost options b option := by
  unfold other_options_cost
  congr 1
  apply List.map_congr_left
  intro k hk
  have hkne : k ≠ option := by
    have := (List.mem_filter.mp hk).2
    simpa [bne_iff_ne] using this
  simp [update_vote, hkne]

/-! ## C1 -/

/-- C1: `calculate_max_votes_for_option` computes exactly the spec's formula
`min(floor(sqrt(max(0, C − Σ_{o≠option} b[o]²))), floor(sqrt(C−1)))` when
`|O| > 1` (just the first term otherwise), and on
`options = ["A","B"], credits = 10` with the all-zero ballot the maximum for
`"A"` is 3. -/
theorem max_votes_matches_spec_formula :
    (∀ (credits : Nat) (options : List String) (b : String → Nat)
        (option : String),
      calculate_max_votes_for_option credits options b option =
        maxAllowedForSpec credits options b option) ∧
    calculate_max_votes_for_option 10 ["A", "B"] (fun _ => 0) "A" = 3 := by
  constructor
  · intro credits options b option
    simp only [calculate_max_votes_for_option, maxAllowedForSpec, clamp_toNat]
  · exact calc_max_ten_zero_eval

/-! ## C7 -/

/-- C7: whenever the other options' cost is within the budget, setting the
option to the value `calculate_max_votes_for_option` returns keeps the total
quadratic cost within the budget. -/
theorem max_votes_safe (credits : Nat) (options : List String)
    (b : String → Nat) (option : String)
    (h : other_options_cost options b option ≤ credits) :
    calculate_max_votes_for_option credits options b option ^ 2 +
      other_options_cost options b option ≤ credits := by
  have h1 := calc_max_le_sqrt credits options b option
  have h2 : calculate_max_votes_for_option credits options b option ^ 2 ≤
      credits - other_options_cost options b option :=
    Nat.le_sqrt'.mp h1
  omega

/-- C7 witness: at `credits = 10`, two options, and 3 votes already on `"B"`,
the returned maximum 1 keeps the cost within the budget. -/
theorem max_votes_safe_witness :
    calculate_max_votes_for_option 10 ["A", "B"]
      (fun o => if o = "B" then 3 else 0) "A" ^ 2 +
      other_options_cost ["A", "B"] (fun o => if o = "B" then 3 else 0) "A"
      ≤ 10 :=
  max_votes_safe 10 ["A", "B"] (fun o => if o = "B" then 3 else 0) "A"
    (by decide)

/-! ## C10 -/

/-- C10: `calculate_max_votes_for_option` is total and never negative: its
result is ≥ 0 as an integer, and when the other options' combined cost already
exceeds the budget the clamp makes it return 0 rather than failing. -/
theorem max_votes_total_nonneg (credits : Nat) (options : List String)
    (b : String → Nat) (option : String) :
    0 ≤ (calculate_max_votes_for_option credits options b option : Int) ∧
    (credits < other_options_cost options b option →
      calculate_max_votes_for_option credits options b option = 0) := by
  constructor
  · exact Int.natCast_nonneg _
  · intro hover
    have h := calc_max_le_sqrt credits options b option
    have hz : credits - other_options_cost options b option = 0 := by omega
    rw [hz] at h
    simpa using h

/-- C10 witness: with 8 votes on `"B"` (cost 64 > 10), the maximum for `"A"`
is well-defined, equal to 0, and nonnegative. -/
theorem max_votes_total_nonneg_witness :
    0 ≤ (calculate_max_votes_for_option 10 ["A", "B"] (fun _ => 8) "A" : Int) ∧
    calculate_max_votes_for_option 10 ["A", "B"] (fun _ => 8) "A" = 0 :=
  ⟨(max_votes_total_nonneg 10 ["A", "B"] (fun _ => 8) "A").1,
   (max_votes_total_nonneg 10 ["A", "B"] (fun _ => 8) "A").2 (by decide)⟩

/-! ## C2 -/

/-- C2: every ballot state reachable through the voting-entry operations —
the all-zero ballot, then single-option updates bounded by
`calculate_max_votes_for_option` — keeps the quadratic cost within the budget.
(The options list is duplicate-free, as the key set of a Python dict is.) -/
theorem reachable_cost_le (credits : Nat) (options : List String)
    (hnd : options.Nodup) (b : String → Nat)
    (hr : ReachableBallot credits options b) :
    get_total_cost options b ≤ credits := by
  induction hr with
  | init =>
    have hz : get_total_cost options (fun _ => 0) = 0 := by
      simp [get_total_cost]
    omega
  | step b' option v hb hmem hv ih =>
    have hdec := get_total_cost_decompose options b' option hnd hmem
    have hdec2 := get_total_cost_decompose options (update_vote b' option v)
      option hnd hmem
    have hupd : update_vote b' option v option = v := by simp [update_vote]
    have hocu := other_options_cost_update options b' option v
    have hle : v ≤ Nat.sqrt (credits - other_options_cost options b' option) :=
      le_trans hv (calc_max_le_sqrt credits options b' option)
    have hsq : v ^ 2 ≤ credits - other_options_cost options b' option :=
      Nat.le_sqrt'.mp hle
    rw [hdec2, hupd, hocu]
    omega

/-- C2 witness: setting `"A"` to 2 from the all-zero ballot (within the
allowed maximum 3) gives a reachable ballot of cost 4 ≤ 10. -/
theorem reachable_cost_le_witness :
    get_total_cost ["A", "B"] (update_vote (fun _ => 0) "A" 2) ≤ 10 :=
  reachable_cost_le 10 ["A", "B"] (by decide) _
    (.step _ "A" 2 .init (by decide)
      (by rw [calc_max_ten_zero_eval]; omega))

/-! ## C5 -/

/-- C5 counterexample: the visualization component's ledger read does not
return the empty sequence on an absent or zero-length file — it raises
(`FileNotFoundError`, resp. `JSONDecodeError` from `json.load`). -/
theorem load_vote_data_raises_cex :
    load_vote_data .absent = .error .fileNotFound ∧
    load_vote_data .emptyFile = .error .parseError ∧
    load_vote_data .absent ≠ .ok ([], []) := by
  refine ⟨rfl, rfl, ?_⟩
  intro h
  exact Except.noConfusion h

/-- C5 amended: the voting-entry component's `load_votes` returns the full
stored sequence and `[]` on an absent or zero-length file, while the
visualization component's `load_vote_data` raises `FileNotFoundError` on an
absent file and a parse error on a zero-length file. -/
theorem ledger_load_behaviour (records : List VoteRecord) :
    load_votes .absent = .ok [] ∧
    load_votes .emptyFile = .ok [] ∧
    load_votes (.json records) = .ok records ∧
    load_votes .malformed = .error .parseError ∧
    load_vote_data .absent = .error .fileNotFound ∧
    load_vote_data .emptyFile = .error .parseError ∧
    load_vote_data (.json records) =
      .ok (records, extract_vote_columns records) :=
  ⟨rfl, rfl, rfl, rfl, rfl, rfl, rfl⟩

/-! ## C9 -/

/-- C9: from any non-corrupt ledger file state, appending a record and loading
returns the previously stored records in their original order followed by the
appended record: the last element is the appended record and the preceding
elements are exactly the prior records. -/
theorem append_then_load_roundtrip (file : VotesFile) (record : VoteRecord)
    (h : file ≠ .malformed) :
    ∃ prior : List VoteRecord,
      load_votes file = .ok prior ∧
      complete_vote file record = .ok (.json (prior ++ [record])) ∧
      load_votes (.json (prior ++ [record])) = .ok (prior ++ [record]) ∧
      (prior ++ [record]).getLast? = some record ∧
      (prior ++ [record]).dropLast = prior := by
  cases file with
  | absent => exact ⟨[], rfl, rfl, rfl, by simp, by simp⟩
  | emptyFile => exact ⟨[], rfl, rfl, rfl, by simp, by simp⟩
  | json rs => exact ⟨rs, rfl, rfl, rfl, by simp, by simp⟩
  | malformed => exact absurd rfl h

/-- C9 witness: appending to a one-record ledger and loading gives the old
record followed by the new one. -/
theorem append_then_load_roundtrip_witness :
    ∃ prior : List VoteRecord,
      load_votes (.json [(VoteRecord.mk "alice" [("X", JVal.int 1)] 1)]) = .ok prior ∧
      complete_vote (.json [(VoteRecord.mk "alice" [("X", JVal.int 1)] 1)])
          (VoteRecord.mk "bob" [("X", JVal.int 2)] 2) =
        .ok (.json (prior ++ [(VoteRecord.mk "bob" [("X", JVal.int 2)] 2)])) ∧
      load_votes (.json (prior ++ [(VoteRecord.mk "bob" [("X", JVal.int 2)] 2)])) =
        .ok (prior ++ [(VoteRecord.mk "bob" [("X", JVal.int 2)] 2)]) ∧
      (prior ++ [(VoteRecord.mk "bob" [("X", JVal.int 2)] 2)]).getLast? =
        some (VoteRecord.mk "bob" [("X", JVal.int 2)] 2) ∧
      (prior ++ [(VoteRecord.mk "bob" [("X", JVal.int 2)] 2)]).dropLast = prior :=
  append_then_load_roundtrip (.json [(VoteRecord.mk "alice" [("X", JVal.int 1)] 1)])
    (VoteRecord.mk "bob" [("X", JVal.int 2)] 2) (by decide)

/-! ## C6 -/

/-- C6 counterexample: with `credits = 10`, two options, and 4 votes on `"A"`
(cost 16 > 10 and also 16 ≥ 10), `validate_votes` reports `overBudget`, not
`singleOptionMonopoly` — the claimed biconditional for `SingleOptionMonopoly`
fails because the over-budget check runs first. -/
theorem validate_monopoly_iff_cex :
    ¬ ((validate_votes 10 ["A", "B"] (fun o => if o = "A" then 4 else 0) =
          .singleOptionMonopoly) ↔
        (1 < (["A", "B"] : List String).length ∧
          ∃ o ∈ (["A", "B"] : List String),
            10 ≤ (if o = "A" then 4 else 0 : Nat) ^ 2)) := by
  decide

/-- C6 amended: `validate_votes` reports `overBudget` exactly when the total
cost exceeds the budget; it reports `singleOptionMonopoly` exactly when the
total cost is within the budget (the over-budget check runs first), there is
more than one option, and some option's count squared reaches or exceeds the
budget; a ballot passing both checks validates `ok`.  In particular a ballot
whose one option's count squared equals the budget (3² = 9) with two options
is rejected as `singleOptionMonopoly`. -/
theorem validate_votes_characterization :
    (∀ (credits : Nat) (options : List String) (b : String → Nat),
      (validate_votes credits options b = .overBudget ↔
        credits < get_total_cost options b) ∧
      (validate_votes credits options b = .singleOptionMonopoly ↔
        (get_total_cost options b ≤ credits ∧ 1 < options.length ∧
          ∃ o ∈ options, credits ≤ b o ^ 2)) ∧
      (validate_votes credits options b = .ok ↔
        (get_total_cost options b ≤ credits ∧
          (options.length ≤ 1 ∨ ∀ o ∈ options, b o ^ 2 < credits)))) ∧
    validate_votes 9 ["A", "B"] (fun o => if o = "A" then 3 else 0) =
      .singleOptionMonopoly := by
  constructor
  · intro credits options b
    simp only [validate_votes]
    split_ifs with h1 h2 h3
    · refine ⟨by simp [h1], ?_, ?_⟩
      · constructor
        · intro h
          cases h
        · rintro ⟨h, -⟩
          omega
      · constructor
        · intro h
          cases h
        · rintro ⟨h, -⟩
          omega
    · simp only [List.any_eq_true, decide_eq_true_eq] at h3
      refine ⟨⟨(fun h => nomatch h), fun h => absurd h h1⟩, ?_, ?_⟩
      · constructor
        · intro _
          exact ⟨by omega, h2, h3⟩
        · intro _
          rfl
      · constructor
        · intro h
          cases h
        · rintro ⟨-, h | h⟩
          · omega
          · rcases h3 with ⟨o, ho, hco⟩
            have := h o ho
            omega
    · simp only [List.any_eq_true, decide_eq_true_eq] at h3
      push_neg at h3
      refine ⟨⟨(fun h => nomatch h), fun h => absurd h h1⟩, ?_, ?_⟩
      · constructor
        · intro h
          cases h
        · rintro ⟨-, -, o, ho, hco⟩
          have := h3 o ho
          omega
      · constructor
        · intro _
          exact ⟨by omega, Or.inr (fun o ho => by have := h3 o ho; omega)⟩
        · intro _
          rfl
    · refine ⟨⟨(fun h => nomatch h), fun h => absurd h h1⟩, ?_, ?_⟩
      · constructor
        · intro h
          cases h
        · rintro ⟨-, hlen, -⟩
          omega
      · constructor
        · intro _
          exact ⟨by omega, Or.inl (by omega)⟩
        · intro _
          rfl
  · have h9 : get_total_cost ["A", "B"] (fun o => if o = "A" then 3 else 0)
        = 9 := by decide
    simp only [validate_votes]
    rw [if_neg (by rw [h9]; omega)]
    rw [if_pos (by decide), if_pos (by decide)]

/-- C6 witness: the amended characterization evaluated at `credits = 10`, two
options, all-zero ballot: the result is `ok` since the cost 0 is within the
budget and no option's square reaches 10. -/
theorem validate_votes_characterization_witness :
    validate_votes 10 ["A", "B"] (fun _ => 0) = .ok :=
  ((validate_votes_characterization.1 10 ["A", "B"] (fun _ => 0)).2.2).mpr
    ⟨by decide, Or.inr (by decide)⟩

/-! ## C4 -/

/-- Looking up a key present in `l` in the association list pairing each
element of `l` with `f` of it yields `f` of the key. -/
theorem lookup_map_pair (f : String → Int) (l : List String) (x : String)
    (hx : x ∈ l) :
    (l.map (fun c => (c, f c))).lookup x = some (f x) := by
  induction l with
  | nil => cases hx
  | cons c rest ih =>
    rcases List.mem_cons.mp hx with h | h
    · subst h
      simp [List.lookup]
    · by_cases hxc : x = c
      · subst hxc
        simp [List.lookup]
      · have hb : (x == c) = false := beq_eq_false_iff_ne.mpr hxc
        simp [List.lookup, hb, ih h]

/-- The per-record contribution: missing column → 0, otherwise the guarded
`int(...)` coercion (its value on success, 0 on `ValueError`/`TypeError`). -/
theorem recordVoteFor_eq (r : VoteRecord) (column : String) :
    recordVoteFor r column =
      ((r.votes.lookup column).map (fun v => (pyToInt v).getD 0)).getD 0 := by
  cases h : r.votes.lookup column <;>
    simp [recordVoteFor, coerceVote, h, pyToInt]

/-- C4 counterexample: Python's `int("5")` succeeds, so the string vote value
`"5"` — a value that is not an integer — contributes 5 to the total where the
claim predicts 0. -/
theorem vote_summary_string_cex :
    calculate_vote_summary
        [VoteRecord.mk "u" [("X", JVal.str "5")] 0] ["X"] = [("X", 5)] ∧
    claimTotals [VoteRecord.mk "u" [("X", JVal.str "5")] 0] ["X"] =
      [("X", 0)] ∧
    (5 : Int) ≠ 0 := by
  refine ⟨by decide, by decide, by decide⟩

/-- C4 amended: for a nonempty record list and an option in the column list,
the summary total for that option is the sum over records of the guarded
coercion of the option's value: a value missing from the record's ballot
contributes 0, a value whose `int(...)` coercion fails contributes 0 (the
failure is swallowed, never raised), and a value whose coercion succeeds —
including a numeric string — contributes the coerced integer. -/
theorem vote_summary_totals (records : List VoteRecord)
    (vote_columns : List String) (column : String)
    (hne : records ≠ []) (hmem : column ∈ vote_columns) :
    (calculate_vote_summary records vote_columns).lookup column =
      some ((records.map (fun r =>
        ((r.votes.lookup column).map
          (fun v => (pyToInt v).getD 0)).getD 0)).sum) := by
  have hre : records.isEmpty = false := by
    cases records
    · exact absurd rfl hne
    · rfl
  have hce : vote_columns.isEmpty = false := by
    cases vote_columns
    · cases hmem
    · rfl
  have hmap : records.map (fun r => recordVoteFor r column) =
      records.map (fun r =>
        ((r.votes.lookup column).map (fun v => (pyToInt v).getD 0)).getD 0) :=
    List.map_congr_left (fun r _ => recordVoteFor_eq r column)
  simp only [calculate_vote_summary, hre, hce, Bool.or_self, Bool.or_false,
    Bool.false_eq_true, if_false]
  rw [lookup_map_pair (fun c => (records.map (fun r => recordVoteFor r c)).sum)
    vote_columns column hmem]
  rw [hmap]

/-- C4 witness: on a two-record ledger where `"u"` voted 2 on `"X"` and `"v"`
recorded no value for `"X"`, the total for `"X"` is 2. -/
theorem vote_summary_totals_witness :
    (calculate_vote_summary
        [VoteRecord.mk "u" [("X", JVal.int 2)] 0, VoteRecord.mk "v" [] 1]
        ["X"]).lookup "X" = some 2 :=
  (vote_summary_totals
      [VoteRecord.mk "u" [("X", JVal.int 2)] 0, VoteRecord.mk "v" [] 1]
      ["X"] "X" (by decide) (by decide)).trans (by decide)

/-! ## Helper lemmas about deduplication -/

/-- The timestamp comparator is transitive. -/
theorem dtLE_trans : ∀ (a b c : VoteRecord), dtLE a b → dtLE b c → dtLE a c := by
  intro a b c hab hbc
  simp only [dtLE, decide_eq_true_eq] at *
  omega

/-- The timestamp comparator is total. -/
theorem dtLE_total : ∀ (a b : VoteRecord), dtLE a b || dtLE b a := by
  intro a b
  simp only [dtLE, Bool.or_eq_true, decide_eq_true_eq]
  omega

/-- The sorted ledger is pairwise ordered by timestamp. -/
theorem sortByDatetime_pairwise (rs : List VoteRecord) :
    (sortByDatetime rs).Pairwise (fun a b => dtLE a b = true) :=
  List.sorted_mergeSort dtLE_trans dtLE_total rs

/-- `keepLastPerUser` has a row for a username exactly when the input does. -/
theorem keepLast_any_user (l : List VoteRecord) (u : String) :
    (keepLastPerUser l).any (fun x => x.username == u) =
      l.any (fun x => x.username == u) := by
  induction l with
  | nil => rfl
  | cons r l ih =>
    simp only [keepLastPerUser]
    split
    · rename_i hcond
      rw [List.any_cons, ih]
      by_cases hu : r.username = u
      · subst hu
        rw [ih] at hcond
        simp [hcond]
      · have hbu : (r.username == u) = false := beq_eq_false_iff_ne.mpr hu
        simp [hbu]
    · rw [List.any_cons, List.any_cons, ih]

/-- `keepLastPerUser` keeps a subsequence of its input. -/
theorem keepLast_sublist (l : List VoteRecord) :
    List.Sublist (keepLastPerUser l) l := by
  induction l with
  | nil => exact List.Sublist.refl _
  | cons r l ih =>
    simp only [keepLastPerUser]
    split
    · exact List.Sublist.cons r ih
    · exact List.Sublist.cons₂ r ih

/-- After `keepLastPerUser`, usernames are pairwise distinct. -/
theorem keepLast_usernames_nodup (l : List VoteRecord) :
    ((keepLastPerUser l).map (fun r => r.username)).Nodup := by
  induction l with
  | nil => simp [keepLastPerUser]
  | cons r l ih =>
    simp only [keepLastPerUser]
    split
    · exact ih
    · rename_i hcond
      simp only [List.map_cons, List.nodup_cons]
      refine ⟨?_, ih⟩
      intro hmem
      rcases List.mem_map.mp hmem with ⟨x, hx, hxu⟩
      exact hcond (List.any_eq_true.mpr ⟨x, hx, by simp [hxu]⟩)

/-- A kept row is a last occurrence: the input splits around it and no row
after it has the same username. -/
theorem keepLast_last_occurrence (l : List VoteRecord) (r : VoteRecord)
    (hr : r ∈ keepLastPerUser l) :
    ∃ l₁ l₂, l = l₁ ++ r :: l₂ ∧ ∀ x ∈ l₂, x.username ≠ r.username := by
  induction l with
  | nil => cases hr
  | cons a l ih =>
    simp only [keepLastPerUser] at hr
    by_cases hcond :
        (keepLastPerUser l).any (fun x => x.username == a.username) = true
    · rw [if_pos hcond] at hr
      rcases ih hr with ⟨l₁, l₂, heq, hprop⟩
      exact ⟨a :: l₁, l₂, by rw [heq]; rfl, hprop⟩
    · rw [if_neg hcond] at hr
      rcases List.mem_cons.mp hr with h | h
      · subst h
        refine ⟨[], l, rfl, ?_⟩
        intro x hx hxu
        apply hcond
        rw [keepLast_any_user]
        exact List.any_eq_true.mpr ⟨x, hx, by simp [hxu]⟩
      · rcases ih h with ⟨l₁, l₂, heq, hprop⟩
        exact ⟨a :: l₁, l₂, by rw [heq]; rfl, hprop⟩

/-- In a timestamp-sorted list, a kept row has the greatest timestamp among
its username's rows. -/
theorem keepLast_max_datetime (l : List VoteRecord)
    (hs : l.Pairwise (fun a b => dtLE a b = true)) (r : VoteRecord)
    (hr : r ∈ keepLastPerUser l) (x : VoteRecord) (hx : x ∈ l)
    (hxu : x.username = r.username) :
    x.vote_datetime ≤ r.vote_datetime := by
  rcases keepLast_last_occurrence l r hr with ⟨l₁, l₂, heq, hprop⟩
  subst heq
  rcases List.mem_append.mp hx with h | h
  · have hsplit := List.pairwise_append.mp hs
    have hle := hsplit.2.2 x h r (List.mem_cons_self r l₂)
    simpa [dtLE, decide_eq_true_eq] using hle
  · rcases List.mem_cons.mp h with h | h
    · subst h
      exact le_refl _
    · exact absurd hxu (hprop x h)

/-- A list whose usernames are pairwise distinct is unchanged by
`keepLastPerUser`. -/
theorem keepLast_of_nodup_usernames (l : List VoteRecord)
    (h : (l.map (fun r => r.username)).Nodup) : keepLastPerUser l = l := by
  induction l with
  | nil => rfl
  | cons r l ih =>
    simp only [List.map_cons, List.nodup_cons] at h
    rcases h with ⟨hnm, hnd⟩
    simp only [keepLastPerUser, ih hnd]
    rw [if_neg ?hc]
    case hc =>
      intro hany
      rcases List.any_eq_true.mp hany with ⟨x, hx, hxu⟩
      apply hnm
      exact List.mem_map.mpr ⟨x, hx, by simpa using hxu⟩

/-- The stable realization is one possible `sort_values` output. -/
theorem sortByDatetime_isSorted (rs : List VoteRecord) :
    IsSortedByDatetime rs (sortByDatetime rs) :=
  ⟨List.mergeSort_perm rs dtLE, sortByDatetime_pairwise rs⟩

/-- The stable realization of the deduplication is one possible output of
`remove_duplicate_users`. -/
theorem remove_duplicate_users_isOutput (rs : List VoteRecord) :
    IsDedupOutput rs (remove_duplicate_users rs) :=
  ⟨sortByDatetime rs, sortByDatetime_isSorted rs, rfl⟩

/-! ## C3 -/

/-- C3 counterexample: the default `sort_values` kind is not stable, so when
one voter has two records tied at the greatest timestamp, the kept record
need not be the one occurring last in the original order.  Swapping the two
tied records is a possible sort output; the deduplication then keeps the
record occurring first in the original order, while the claim requires the
last one (the last element of the tie filter below). -/
theorem dedup_tie_order_cex :
    IsDedupOutput
      [VoteRecord.mk "A" [("X", JVal.int 1)] 5,
       VoteRecord.mk "A" [("X", JVal.int 2)] 5]
      [VoteRecord.mk "A" [("X", JVal.int 1)] 5] ∧
    ([VoteRecord.mk "A" [("X", JVal.int 1)] 5,
      VoteRecord.mk "A" [("X", JVal.int 2)] 5].filter
        (fun x => x.username == "A" && x.vote_datetime == 5)).getLast? =
      some (VoteRecord.mk "A" [("X", JVal.int 2)] 5) ∧
    VoteRecord.mk "A" [("X", JVal.int 1)] 5 ≠
      VoteRecord.mk "A" [("X", JVal.int 2)] 5 :=
  ⟨⟨[VoteRecord.mk "A" [("X", JVal.int 2)] 5,
     VoteRecord.mk "A" [("X", JVal.int 1)] 5],
    ⟨by decide, by decide⟩, by decide⟩, by decide, by decide⟩

/-- C3 amended: every possible output of `remove_duplicate_users` contains
each distinct voter identity at most once, represents every voter of the
input, and keeps for each voter only input records with the greatest
timestamp among that voter's records; which record among several sharing the
greatest timestamp is kept is unspecified, because the default sort is not
guaranteed stable. -/
theorem dedup_any_output_latest_per_voter (records out : List VoteRecord)
    (h : IsDedupOutput records out) :
    ((out.map (fun r => r.username)).Nodup) ∧
    (∀ x ∈ records, ∃ r ∈ out, r.username = x.username) ∧
    ∀ r ∈ out, r ∈ records ∧
      ∀ x ∈ records, x.username = r.username →
        x.vote_datetime ≤ r.vote_datetime := by
  rcases h with ⟨l, ⟨hperm, hpair⟩, rfl⟩
  refine ⟨keepLast_usernames_nodup _, ?_, ?_⟩
  · intro x hx
    have hxl : x ∈ l := hperm.mem_iff.mpr hx
    have hany : (keepLastPerUser l).any
        (fun y => y.username == x.username) = true := by
      rw [keepLast_any_user]
      exact List.any_eq_true.mpr ⟨x, hxl, by simp⟩
    rcases List.any_eq_true.mp hany with ⟨r, hrm, hru⟩
    exact ⟨r, hrm, by simpa using hru⟩
  · intro r hr
    have hrl : r ∈ l := (keepLast_sublist _).subset hr
    refine ⟨hperm.mem_iff.mp hrl, ?_⟩
    intro x hx hxu
    exact keepLast_max_datetime l hpair r hr x (hperm.mem_iff.mpr hx) hxu

/-- C3 witness: on the two-record ledger `[B@2, A@1]`, `[A@1, B@2]` is a
possible output, and the amended per-voter properties hold of it. -/
theorem dedup_any_output_latest_witness :
    ((([VoteRecord.mk "A" [] 1, VoteRecord.mk "B" [] 2]).map
        (fun r => r.username)).Nodup) ∧
    (∀ x ∈ [VoteRecord.mk "B" [] 2, VoteRecord.mk "A" [] 1],
      ∃ r ∈ [VoteRecord.mk "A" [] 1, VoteRecord.mk "B" [] 2],
        r.username = x.username) ∧
    ∀ r ∈ [VoteRecord.mk "A" [] 1, VoteRecord.mk "B" [] 2],
      r ∈ [VoteRecord.mk "B" [] 2, VoteRecord.mk "A" [] 1] ∧
      ∀ x ∈ [VoteRecord.mk "B" [] 2, VoteRecord.mk "A" [] 1],
        x.username = r.username → x.vote_datetime ≤ r.vote_datetime :=
  dedup_any_output_latest_per_voter
    [VoteRecord.mk "B" [] 2, VoteRecord.mk "A" [] 1]
    [VoteRecord.mk "A" [] 1, VoteRecord.mk "B" [] 2]
    ⟨[VoteRecord.mk "A" [] 1, VoteRecord.mk "B" [] 2],
      ⟨by decide, by decide⟩, by decide⟩

/-! ## C8 -/

/-- C8 counterexample: re-running `remove_duplicate_users` on its own output
may reorder records of distinct voters tied at one timestamp, because the
default sort is not stable.  `[A@1, B@1]` is a possible first result, the
swapped `[B@1, A@1]` is a possible result of applying the deduplication to
it, and the two sequences differ — applying the operation twice need not
yield the same result sequence as applying it once. -/
theorem dedup_idempotent_cex :
    IsDedupOutput [VoteRecord.mk "A" [] 1, VoteRecord.mk "B" [] 1]
      [VoteRecord.mk "A" [] 1, VoteRecord.mk "B" [] 1] ∧
    IsDedupOutput [VoteRecord.mk "A" [] 1, VoteRecord.mk "B" [] 1]
      [VoteRecord.mk "B" [] 1, VoteRecord.mk "A" [] 1] ∧
    [VoteRecord.mk "B" [] 1, VoteRecord.mk "A" [] 1] ≠
      [VoteRecord.mk "A" [] 1, VoteRecord.mk "B" [] 1] :=
  ⟨⟨[VoteRecord.mk "A" [] 1, VoteRecord.mk "B" [] 1],
     ⟨by decide, by decide⟩, by decide⟩,
   ⟨[VoteRecord.mk "B" [] 1, VoteRecord.mk "A" [] 1],
     ⟨by decide, by decide⟩, by decide⟩,
   by decide⟩

/-- C8 amended: `remove_duplicate_users` is idempotent up to the unspecified
order of timestamp-tied records: any output of a second application is a
permutation of the first result — the same records, possibly reordered among
equal timestamps — though sequence equality is not guaranteed by the
unstable default sort. -/
theorem dedup_idempotent_up_to_tie_order (records d e : List VoteRecord)
    (h1 : IsDedupOutput records d) (h2 : IsDedupOutput d e) :
    List.Perm e d := by
  rcases h1 with ⟨l1, ⟨hperm1, hpair1⟩, rfl⟩
  rcases h2 with ⟨l2, ⟨hperm2, hpair2⟩, rfl⟩
  have hnd : ((keepLastPerUser l1).map (fun r => r.username)).Nodup :=
    keepLast_usernames_nodup l1
  have hnd2 : (l2.map (fun r => r.username)).Nodup := by
    have hmapperm : List.Perm (l2.map (fun r => r.username))
        ((keepLastPerUser l1).map (fun r => r.username)) :=
      hperm2.map _
    exact hmapperm.nodup_iff.mpr hnd
  rw [keepLast_of_nodup_usernames l2 hnd2]
  exact hperm2

/-- C8 witness: a second application to the first result `[A@1, B@1]` can
return `[B@1, A@1]`, and that is a permutation of the first result. -/
theorem dedup_idempotent_up_to_tie_order_witness :
    List.Perm [VoteRecord.mk "B" [] 1, VoteRecord.mk "A" [] 1]
      [VoteRecord.mk "A" [] 1, VoteRecord.mk "B" [] 1] :=
  dedup_idempotent_up_to_tie_order
    [VoteRecord.mk "A" [] 1, VoteRecord.mk "B" [] 1]
    [VoteRecord.mk "A" [] 1, VoteRecord.mk "B" [] 1]
    [VoteRecord.mk "B" [] 1, VoteRecord.mk "A" [] 1]
    ⟨[VoteRecord.mk "A" [] 1, VoteRecord.mk "B" [] 1],
      ⟨by decide, by decide⟩, by decide⟩
    ⟨[VoteRecord.mk "B" [] 1, VoteRecord.mk "A" [] 1],
      ⟨by decide, by decide⟩, by decide⟩

end QuadraticVoting
